import Mathlib

/-!
# Verification of the prescription-reminder scheduling core (`src/app.py`)

Shallow embedding of the scheduling logic of `app.py`:

* Timestamps are modelled as integers counting **minutes** (the app stores
  ISO-8601 strings at minute precision, `isoformat(timespec="minutes")`, and
  all arithmetic is `timedelta(minutes=...)`).  The POSIX-seconds value
  `int(when.timestamp())` used inside job-key strings is therefore `60 * t`.
* The `schedule_time` / `created_at` TEXT columns may hold strings that
  `datetime.fromisoformat` rejects with `ValueError`; a stored time field is
  modelled as either a well-formed minute timestamp or a malformed string.
* The sqlite table is a list of rows; the APScheduler job store is a list of
  jobs.  `scheduler.get_job` is lookup by job-id string, `scheduler.add_job`
  appends.  `print` is modelled as an emitted notification value.
* Functions that can raise an uncaught exception (`fire_reminder` parses the
  stored time with no `try`) return `Option`; `none` is an escaped exception.
-/

/-- Contents of a stored TEXT time column: either a well-formed ISO-8601
minute-precision date-time (denoted by its minute timestamp) or a string
`datetime.fromisoformat` rejects. -/
inductive TimeText where
  | valid (t : Int)
  | malformed (s : String)
  deriving DecidableEq

/-- Function `datetime.fromisoformat` as a total parse: `some` on well-formed input,
`none` where the Python call raises `ValueError`. -/
def fromisoformat : TimeText → Option Int
  | .valid t => some t
  | .malformed _ => none

/-- One row of the `reminders` table (`init_db`). -/
structure Reminder where
  id : Nat
  med_name : String
  dosage : String
  schedule_time : TimeText
  repeat_minutes : Option Int
  created_at : TimeText
  deriving DecidableEq

/-- One APScheduler job as armed by `schedule_job`: its string id, plus the
`args=[reminder_id]` and `run_date` it was created with. -/
structure Job where
  job_id : String
  rid : Nat
  run_date : Int
  deriving DecidableEq

/-- One console notification, as printed by `fire_reminder`
(`print(f"🔔 Reminder: Take {med_name} — {dosage} (due at {schedule_time})")`). -/
structure Notification where
  med_name : String
  dosage : String
  due_raw : TimeText
  deriving DecidableEq

/-- Global state: the sqlite `reminders` table plus the APScheduler job store. -/
structure AppState where
  store : List Reminder
  jobs : List Job
  deriving DecidableEq

/-- Python `get_reminder`: `SELECT ... WHERE id = ?` with `fetchone` — the first
matching row, if any. -/
def get_reminder (s : AppState) (reminder_id : Nat) : Option Reminder :=
  s.store.find? (fun r => r.id == reminder_id)

/-- Python `get_all_reminders`: all rows.  (The SQL `ORDER BY datetime(schedule_time)`
only fixes iteration order; none of the properties proved below depend on the
order rows are visited in, so rows are returned in table order.) -/
def get_all_reminders (s : AppState) : List Reminder :=
  s.store

/-- Python `delete_reminder_db`: `DELETE FROM reminders WHERE id = ?`. -/
def delete_reminder_db (s : AppState) (reminder_id : Nat) : AppState :=
  { s with store := s.store.filter (fun r => r.id != reminder_id) }

/-- The `UPDATE reminders SET schedule_time = ? WHERE id = ?` statement issued
by `fire_reminder`. -/
def update_schedule_time (s : AppState) (reminder_id : Nat) (new_time : Int) :
    AppState :=
  { s with
    store := s.store.map (fun r =>
      if r.id = reminder_id then { r with schedule_time := .valid new_time }
      else r) }

/-- The job-id string built in `schedule_job`:
`f"reminder_{reminder_id}_{int(when.timestamp())}"`.  For a minute timestamp
`t` the POSIX-seconds value is `60 * t`. -/
def job_id_of (reminder_id : Nat) (when : Int) : String :=
  "reminder_" ++ reminder_id.repr ++ "_" ++ (60 * when).repr

/-- Call `scheduler.get_job(job_id)`: is a job with this id present? -/
def get_job (s : AppState) (jid : String) : Bool :=
  s.jobs.any (fun j => j.job_id == jid)

/-- Python `schedule_job(reminder_id, when)`: build the occurrence key; if
`scheduler.get_job` finds it, return; otherwise `scheduler.add_job` a one-off
`DateTrigger` job.  Note the function contains **no** comparison of `when`
against the current time. -/
def schedule_job (s : AppState) (reminder_id : Nat) (when : Int) : AppState :=
  if get_job s (job_id_of reminder_id when) then s
  else { s with
         jobs := s.jobs ++
           [{ job_id := job_id_of reminder_id when, rid := reminder_id,
              run_date := when }] }

/-- The inline occurrence computation of `fire_reminder` lines 86–87, as the
spec's Occurrence Calculator: `if repeat_minutes and repeat_minutes > 0:
next_time = <current due> + timedelta(minutes=repeat_minutes)`.  Python
truthiness makes `None` and `0` fail the guard before the `> 0` test. -/
def next_occurrence (current_due : Int) (repeat_minutes : Option Int) :
    Option Int :=
  match repeat_minutes with
  | none => none
  | some m => if 0 < m then some (current_due + m) else none

/-- Python `fire_reminder(reminder_id)`.  Result: `none` if the Python code would
raise an uncaught exception (malformed stored time reaching `fromisoformat`
inside the repeat branch), otherwise the new state together with the list of
notifications printed. -/
def fire_reminder (s : AppState) (reminder_id : Nat) :
    Option (AppState × List Notification) :=
  match get_reminder s reminder_id with
  | none => some (s, [])
  | some row =>
    let note : Notification :=
      { med_name := row.med_name, dosage := row.dosage, due_raw := row.schedule_time }
    match row.repeat_minutes with
    | none => some (s, [note])
    | some m =>
      if 0 < m then
        match fromisoformat row.schedule_time with
        | none => none
        | some t =>
          let next_time := t + m
          let s₁ := update_schedule_time s reminder_id next_time
          some (schedule_job s₁ reminder_id next_time, [note])
      else some (s, [note])

/-- The loop body of `bootstrap_jobs` for one stored row: try to parse its
time (`except ValueError: continue`) and `schedule_job` it when strictly in
the future (`if when > now`). -/
def boot_step (now : Int) (acc : AppState) (r : Reminder) : AppState :=
  match fromisoformat r.schedule_time with
  | none => acc
  | some when => if now < when then schedule_job acc r.id when else acc

/-- Python `bootstrap_jobs()`: `now = datetime.now()`, then the loop over
`get_all_reminders()`. -/
def bootstrap_jobs (s : AppState) (now : Int) : AppState :=
  (get_all_reminders s).foldl (boot_step now) s

/-- The `POST /` branch of `index` after validation: `save_reminder` inserts a
row (fresh sqlite id `rid`, supplied here as a parameter standing for
`lastrowid`; the route stores `repeat_minutes` as a positive int or `NULL`),
then arms the first occurrence only when `schedule_dt > datetime.now()`. -/
def create_reminder (s : AppState) (rid : Nat) (med_name dosage : String)
    (schedule_dt : Int) (repeat_minutes : Option Int) (created_at : Int)
    (now : Int) : AppState :=
  let s₁ : AppState :=
    { s with
      store := s.store ++
        [{ id := rid, med_name := med_name, dosage := dosage,
           schedule_time := .valid schedule_dt,
           repeat_minutes := repeat_minutes,
           created_at := .valid created_at }] }
  if now < schedule_dt then schedule_job s₁ rid schedule_dt else s₁

/-- The `POST /delete/<reminder_id>` route: deletes the row only; the comment
in the source says explicitly that scheduled jobs are *not* enumerated or
cancelled. -/
def delete_reminder (s : AppState) (reminder_id : Nat) : AppState :=
  delete_reminder_db s reminder_id

/-- One transition of the application: every operation in `app.py` that can
touch the reminder table or the scheduler's job store. -/
inductive AppStep : AppState → AppState → Prop where
  | schedule (s : AppState) (rid : Nat) (when : Int) :
      AppStep s (schedule_job s rid when)
  | fire (s s' : AppState) (rid : Nat) (notes : List Notification)
      (h : fire_reminder s rid = some (s', notes)) : AppStep s s'
  | create (s : AppState) (rid : Nat) (med dosage : String) (dt : Int)
      (rm : Option Int) (created now : Int) :
      AppStep s (create_reminder s rid med dosage dt rm created now)
  | del (s : AppState) (rid : Nat) : AppStep s (delete_reminder s rid)
  | boot (s : AppState) (now : Int) : AppStep s (bootstrap_jobs s now)

/-- States reachable from process start: a fresh `init_db` database and an
empty scheduler, then any interleaving of the application's operations. -/
inductive Reachable : AppState → Prop where
  | init : Reachable { store := [], jobs := [] }
  | step {s s' : AppState} (h : Reachable s) (hs : AppStep s s') : Reachable s'

/-- Well-formedness of the job store: every job's id string is the occurrence
key derived from its own reminder id and run date, and no two jobs share an id
string (APScheduler job ids are unique; `schedule_job` checks `get_job` before
`add_job`). -/
def JobsWF (jobs : List Job) : Prop :=
  (∀ j ∈ jobs, j.job_id = job_id_of j.rid j.run_date) ∧
  jobs.Pairwise (fun a b => a.job_id ≠ b.job_id)

/-- The decimal digit list of `n`, most significant first (used to reason
about the `Nat.repr` / `Int.repr` calls inside job-id strings). -/
def decDigits (n : Nat) : List Char :=
  if _h : n < 10 then [Nat.digitChar n]
  else decDigits (n / 10) ++ [Nat.digitChar (n % 10)]
decreasing_by omega

/-!
## Decimal string representations are injective

Job-id strings embed `reminder_id` and the POSIX timestamp through
`Nat.repr` / `Int.repr`.  Neither injectivity lemma exists in the library,
so we characterise `Nat.repr` by a structurally recursive digit list and
prove injectivity from that.
-/

theorem decDigits_lt {n : Nat} (h : n < 10) : decDigits n = [Nat.digitChar n] := by
  rw [decDigits, dif_pos h]

theorem decDigits_ge {n : Nat} (h : ¬ n < 10) :
    decDigits n = decDigits (n / 10) ++ [Nat.digitChar (n % 10)] := by
  rw [decDigits, dif_neg h]

theorem decDigits_ne_nil (n : Nat) : decDigits n ≠ [] := by
  rw [decDigits]
  split <;> simp

theorem digitChar_inj_lt :
    ∀ a, a < 10 → ∀ b, b < 10 → Nat.digitChar a = Nat.digitChar b → a = b := by
  decide

theorem digitChar_ne_dash : ∀ d, d < 10 → Nat.digitChar d ≠ '-' := by
  decide

theorem dash_not_mem_decDigits (n : Nat) : '-' ∉ decDigits n := by
  induction n using Nat.strong_induction_on with
  | _ n ih =>
    rw [decDigits]
    by_cases h : n < 10
    · simp only [dif_pos h, List.mem_singleton]
      exact fun hc => digitChar_ne_dash n h hc.symm
    · simp only [dif_neg h, List.mem_append, List.mem_singleton]
      rintro (hmem | hc)
      · exact ih (n / 10) (Nat.div_lt_self (by omega) (by omega)) hmem
      · exact digitChar_ne_dash (n % 10) (Nat.mod_lt _ (by omega)) hc.symm

theorem decDigits_inj (m : Nat) : ∀ n, decDigits m = decDigits n → m = n := by
  induction m using Nat.strong_induction_on with
  | _ m ih =>
    intro n h
    by_cases hm : m < 10 <;> by_cases hn : n < 10
    · rw [decDigits_lt hm, decDigits_lt hn] at h
      simp only [List.cons.injEq, and_true] at h
      exact digitChar_inj_lt m hm n hn h
    · rw [decDigits_lt hm, decDigits_ge hn] at h
      have hl := congrArg List.length h
      have hpos : 0 < (decDigits (n / 10)).length :=
        List.length_pos.mpr (decDigits_ne_nil _)
      simp only [List.length_singleton, List.length_append] at hl
      omega
    · rw [decDigits_ge hm, decDigits_lt hn] at h
      have hl := congrArg List.length h
      have hpos : 0 < (decDigits (m / 10)).length :=
        List.length_pos.mpr (decDigits_ne_nil _)
      simp only [List.length_singleton, List.length_append] at hl
      omega
    · rw [decDigits_ge hm, decDigits_ge hn] at h
      obtain ⟨h₁, h₂⟩ := List.append_inj' h (by simp)
      have hdiv : m / 10 = n / 10 :=
        ih (m / 10) (Nat.div_lt_self (by omega) (by omega)) (n / 10) h₁
      have hmod : m % 10 = n % 10 := by
        simp only [List.cons.injEq, and_true] at h₂
        exact digitChar_inj_lt _ (Nat.mod_lt _ (by omega)) _
          (Nat.mod_lt _ (by omega)) h₂
      omega

theorem toDigitsCore_eq_decDigits (fuel : Nat) :
    ∀ (n : Nat) (ds : List Char), n < fuel →
      Nat.toDigitsCore 10 fuel n ds = decDigits n ++ ds := by
  induction fuel with
  | zero => omega
  | succ f ih =>
    intro n ds hn
    rw [Nat.toDigitsCore]
    by_cases h10 : n / 10 = 0
    · simp only [h10, if_pos]
      rw [decDigits]
      have hlt : n < 10 := by omega
      rw [dif_pos hlt, Nat.mod_eq_of_lt hlt]
      rfl
    · rw [if_neg h10]
      rw [ih (n / 10) _ (by omega)]
      conv_rhs => rw [decDigits]
      rw [dif_neg (by omega : ¬ n < 10)]
      simp

theorem nat_repr_data (n : Nat) : (Nat.repr n).data = decDigits n := by
  unfold Nat.repr Nat.toDigits
  rw [toDigitsCore_eq_decDigits (n + 1) n [] (Nat.lt_succ_self n)]
  simp [List.asString]

theorem nat_repr_inj {m n : Nat} (h : Nat.repr m = Nat.repr n) : m = n := by
  apply decDigits_inj
  rw [← nat_repr_data, ← nat_repr_data, h]

theorem string_data_append (a b : String) : (a ++ b).data = a.data ++ b.data :=
  rfl

theorem int_repr_inj {a b : Int} (h : Int.repr a = Int.repr b) : a = b := by
  cases a with
  | ofNat m =>
    cases b with
    | ofNat n =>
      simp only [Int.repr] at h
      exact congrArg Int.ofNat (nat_repr_inj h)
    | negSucc n =>
      simp only [Int.repr] at h
      have hd := congrArg String.data h
      rw [nat_repr_data, string_data_append] at hd
      have : '-' ∈ decDigits m := by
        rw [hd]; exact List.mem_append_left _ (by decide)
      exact absurd this (dash_not_mem_decDigits m)
  | negSucc m =>
    cases b with
    | ofNat n =>
      simp only [Int.repr] at h
      have hd := congrArg String.data h
      rw [nat_repr_data, string_data_append] at hd
      have : '-' ∈ decDigits n := by
        rw [← hd]; exact List.mem_append_left _ (by decide)
      exact absurd this (dash_not_mem_decDigits n)
    | negSucc n =>
      simp only [Int.repr] at h
      have hd := congrArg String.data h
      rw [string_data_append, string_data_append] at hd
      have hr : Nat.repr (m + 1) = Nat.repr (n + 1) := by
        apply String.ext
        exact List.append_cancel_left hd
      have hmn := nat_repr_inj hr
      have : m = n := by omega
      rw [this]

theorem string_append_cancel_left {a b c : String} (h : a ++ b = a ++ c) :
    b = c := by
  apply String.ext
  have hd := congrArg String.data h
  rw [string_data_append, string_data_append] at hd
  exact List.append_cancel_left hd

/-- Distinct due timestamps for the same reminder always yield distinct
job-id strings. -/
theorem job_id_of_inj_time (rid : Nat) {t₁ t₂ : Int}
    (h : job_id_of rid t₁ = job_id_of rid t₂) : t₁ = t₂ := by
  unfold job_id_of at h
  have h₁ : (60 * t₁).repr = (60 * t₂).repr := string_append_cancel_left h
  have h₂ := int_repr_inj h₁
  omega

/-!
## Basic facts about `schedule_job`
-/

theorem schedule_job_store (s : AppState) (rid : Nat) (t : Int) :
    (schedule_job s rid t).store = s.store := by
  unfold schedule_job
  split <;> rfl

theorem schedule_job_of_present {s : AppState} {rid : Nat} {t : Int}
    (h : get_job s (job_id_of rid t) = true) : schedule_job s rid t = s := by
  unfold schedule_job
  rw [h, if_pos rfl]

theorem schedule_job_of_absent {s : AppState} {rid : Nat} {t : Int}
    (h : get_job s (job_id_of rid t) = false) :
    (schedule_job s rid t).jobs =
      s.jobs ++ [{ job_id := job_id_of rid t, rid := rid, run_date := t }] := by
  unfold schedule_job
  rw [h, if_neg (by simp)]

theorem get_job_schedule_job (s : AppState) (rid : Nat) (t : Int) (k : String) :
    get_job (schedule_job s rid t) k =
      (get_job s k || (k == job_id_of rid t)) := by
  by_cases h : get_job s (job_id_of rid t)
  · rw [schedule_job_of_present h]
    by_cases hk : k = job_id_of rid t
    · subst hk
      simp [h]
    · simp [hk]
  · have hjobs := schedule_job_of_absent (by simpa using h)
    unfold get_job at *
    rw [hjobs, List.any_append]
    simp [BEq.comm]

/-!
## Facts about `fire_reminder`
-/

theorem fire_reminder_of_absent {s : AppState} {reminder_id : Nat}
    (h : get_reminder s reminder_id = none) :
    fire_reminder s reminder_id = some (s, []) := by
  unfold fire_reminder
  rw [h]

theorem fire_reminder_of_repeat {s : AppState} {reminder_id : Nat}
    {row : Reminder} {T m : Int}
    (hrow : get_reminder s reminder_id = some row)
    (hT : row.schedule_time = .valid T)
    (hm : row.repeat_minutes = some m) (hpos : 0 < m) :
    fire_reminder s reminder_id =
      some (schedule_job (update_schedule_time s reminder_id (T + m))
              reminder_id (T + m),
            [{ med_name := row.med_name, dosage := row.dosage,
               due_raw := row.schedule_time }]) := by
  unfold fire_reminder
  rw [hrow]
  dsimp only
  rw [hm]
  dsimp only
  rw [if_pos hpos, hT]
  rfl

/-!
## Claim theorems
-/

/-- **C1.** If the reminder's record is absent from the store (deleted since
scheduling), `fire_reminder` aborts silently: it raises nothing, prints no
notification, leaves the store untouched and arms no further job. -/
theorem fire_deleted_aborts_silently (s : AppState) (reminder_id : Nat)
    (h : get_reminder s reminder_id = none) :
    fire_reminder s reminder_id = some (s, []) :=
  fire_reminder_of_absent h

/-- Witness for C1: a timer is armed for reminder 1 but its record has been
deleted; firing changes nothing and notifies nobody. -/
theorem fire_deleted_aborts_silently_witness :
    get_reminder { store := [],
                   jobs := [{ job_id := job_id_of 1 100, rid := 1,
                              run_date := 100 }] } 1 = none ∧
    fire_reminder { store := [],
                    jobs := [{ job_id := job_id_of 1 100, rid := 1,
                               run_date := 100 }] } 1 =
      some ({ store := [],
              jobs := [{ job_id := job_id_of 1 100, rid := 1,
                         run_date := 100 }] }, []) :=
  ⟨rfl, fire_deleted_aborts_silently _ 1 rfl⟩

/-- **C3.** The Occurrence Calculator (the inline computation of
`fire_reminder`): absent repeat gives no occurrence, a positive repeat `m`
gives exactly `current_due + m`, a non-positive repeat gives no occurrence.
The function reads neither the store nor a clock — its arguments are the
stored due time and interval only. -/
theorem next_occurrence_characterised (current_due : Int) :
    next_occurrence current_due none = none ∧
    (∀ m : Int, 0 < m →
      next_occurrence current_due (some m) = some (current_due + m)) ∧
    (∀ m : Int, m ≤ 0 → next_occurrence current_due (some m) = none) := by
  refine ⟨rfl, ?_, ?_⟩ <;> intro m hm <;> simp only [next_occurrence]
  · rw [if_pos hm]
  · rw [if_neg (by omega)]

/-- Witness for C3 at `current_due = 100`: repeat 15 yields 115, repeat −5
yields nothing. -/
theorem next_occurrence_characterised_witness :
    next_occurrence 100 (some 15) = some 115 ∧
    next_occurrence 100 (some (-5)) = none :=
  ⟨(next_occurrence_characterised 100).2.1 15 (by decide),
   (next_occurrence_characterised 100).2.2 (-5) (by decide)⟩

theorem update_schedule_time_jobs (s : AppState) (reminder_id : Nat) (t : Int) :
    (update_schedule_time s reminder_id t).jobs = s.jobs := rfl

/-- **C2.** Firing a reminder whose stored due time is `T` and whose repeat
interval is `m > 0` overwrites the stored `schedule_time` with exactly
`T + m` and leaves the registry holding a timer for occurrence
`(reminder_id, T + m)`; when that occurrence key was not yet registered the
armed timer is literally a new job with run date `T + m`.  `fire_reminder`
takes no clock argument, so the result cannot depend on the wall-clock
instant at which the fire actually runs — the next occurrence is a function
of the stored due time alone. -/
theorem fire_advances_from_stored_time (s : AppState) (reminder_id : Nat)
    (row : Reminder) (T m : Int)
    (hrow : get_reminder s reminder_id = some row)
    (hT : row.schedule_time = .valid T)
    (hm : row.repeat_minutes = some m) (hpos : 0 < m) :
    ∃ s' notes, fire_reminder s reminder_id = some (s', notes) ∧
      (∀ r ∈ s'.store, r.id = reminder_id →
        r.schedule_time = TimeText.valid (T + m)) ∧
      get_job s' (job_id_of reminder_id (T + m)) = true ∧
      (get_job s (job_id_of reminder_id (T + m)) = false →
        s'.jobs = s.jobs ++
          [{ job_id := job_id_of reminder_id (T + m), rid := reminder_id,
             run_date := T + m }]) := by
  refine ⟨_, _, fire_reminder_of_repeat hrow hT hm hpos, ?_, ?_, ?_⟩
  · intro r hr hid
    rw [schedule_job_store] at hr
    unfold update_schedule_time at hr
    simp only [List.mem_map] at hr
    obtain ⟨r₀, _hr₀, rfl⟩ := hr
    by_cases h0 : r₀.id = reminder_id
    · rw [if_pos h0]
    · rw [if_neg h0] at hid ⊢
      exact absurd hid h0
  · rw [get_job_schedule_job]
    simp
  · intro habs
    rw [schedule_job_of_absent (by rw [show get_job (update_schedule_time s reminder_id (T + m)) = get_job s from rfl]; exact habs)]
    rw [update_schedule_time_jobs]

/-- Witness for C2: one stored repeating reminder (due 100, every 10 min),
empty registry; firing stores due time 110 and arms the job for 110. -/
theorem fire_advances_from_stored_time_witness :
    get_reminder { store := [{ id := 1, med_name := "aspirin",
                               dosage := "1 tablet",
                               schedule_time := TimeText.valid 100,
                               repeat_minutes := some 10,
                               created_at := TimeText.valid 0 }],
                   jobs := [] } 1 =
      some { id := 1, med_name := "aspirin", dosage := "1 tablet",
             schedule_time := TimeText.valid 100, repeat_minutes := some 10,
             created_at := TimeText.valid 0 } ∧
    ∃ s' notes,
      fire_reminder { store := [{ id := 1, med_name := "aspirin",
                                  dosage := "1 tablet",
                                  schedule_time := TimeText.valid 100,
                                  repeat_minutes := some 10,
                                  created_at := TimeText.valid 0 }],
                      jobs := [] } 1 = some (s', notes) ∧
      (∀ r ∈ s'.store, r.id = 1 → r.schedule_time = TimeText.valid 110) ∧
      get_job s' (job_id_of 1 110) = true ∧
      (get_job { store := [{ id := 1, med_name := "aspirin",
                             dosage := "1 tablet",
                             schedule_time := TimeText.valid 100,
                             repeat_minutes := some 10,
                             created_at := TimeText.valid 0 }],
                 jobs := [] } (job_id_of 1 110) = false →
        s'.jobs = [] ++ [{ job_id := job_id_of 1 110, rid := 1,
                           run_date := 110 }]) :=
  ⟨rfl, fire_advances_from_stored_time _ 1 _ 100 10 rfl rfl rfl (by decide)⟩

/-- **C9.** When a repeating reminder fires, the store keeps the same rows in
the same positions, every row keeps its id, medication name, dosage, repeat
interval and creation time, and every row belonging to a *different* reminder
is completely unchanged — only the fired reminder's `schedule_time` is
overwritten in place. -/
theorem fire_modifies_only_schedule_time (s : AppState) (reminder_id : Nat)
    (row : Reminder) (T m : Int)
    (hrow : get_reminder s reminder_id = some row)
    (hT : row.schedule_time = .valid T)
    (hm : row.repeat_minutes = some m) (hpos : 0 < m) :
    ∃ s' notes, fire_reminder s reminder_id = some (s', notes) ∧
      s'.store.length = s.store.length ∧
      (∀ i : Nat,
        s'.store[i]?.map Reminder.id = s.store[i]?.map Reminder.id ∧
        s'.store[i]?.map Reminder.med_name = s.store[i]?.map Reminder.med_name ∧
        s'.store[i]?.map Reminder.dosage = s.store[i]?.map Reminder.dosage ∧
        s'.store[i]?.map Reminder.repeat_minutes =
          s.store[i]?.map Reminder.repeat_minutes ∧
        s'.store[i]?.map Reminder.created_at =
          s.store[i]?.map Reminder.created_at) ∧
      (∀ i : Nat, ∀ r : Reminder, s.store[i]? = some r → r.id ≠ reminder_id →
        s'.store[i]? = some r) := by
  refine ⟨_, _, fire_reminder_of_repeat hrow hT hm hpos, ?_, ?_, ?_⟩ <;>
    rw [schedule_job_store] <;> unfold update_schedule_time <;> dsimp only
  · rw [List.length_map]
  · intro i
    rw [List.getElem?_map]
    cases hi : s.store[i]? with
    | none => simp
    | some r =>
      by_cases h0 : r.id = reminder_id <;>
        simp [h0, Option.map_some]
  · intro i r hi hne
    rw [List.getElem?_map, hi]
    show some _ = some r
    dsimp only
    rw [if_neg hne]

/-- Witness for C9: firing the single stored repeating reminder keeps every
field but `schedule_time` and leaves unrelated rows (none here) untouched. -/
theorem fire_modifies_only_schedule_time_witness :
    ∃ s' notes,
      fire_reminder { store := [{ id := 1, med_name := "aspirin",
                                  dosage := "1 tablet",
                                  schedule_time := TimeText.valid 100,
                                  repeat_minutes := some 10,
                                  created_at := TimeText.valid 0 }],
                      jobs := [] } 1 = some (s', notes) ∧
      s'.store.length = 1 ∧
      (∀ i : Nat,
        s'.store[i]?.map Reminder.id =
          ([{ id := 1, med_name := "aspirin", dosage := "1 tablet",
              schedule_time := TimeText.valid 100, repeat_minutes := some 10,
              created_at := TimeText.valid 0 }] : List Reminder)[i]?.map Reminder.id ∧
        s'.store[i]?.map Reminder.med_name =
          ([{ id := 1, med_name := "aspirin", dosage := "1 tablet",
              schedule_time := TimeText.valid 100, repeat_minutes := some 10,
              created_at := TimeText.valid 0 }] : List Reminder)[i]?.map Reminder.med_name ∧
        s'.store[i]?.map Reminder.dosage =
          ([{ id := 1, med_name := "aspirin", dosage := "1 tablet",
              schedule_time := TimeText.valid 100, repeat_minutes := some 10,
              created_at := TimeText.valid 0 }] : List Reminder)[i]?.map Reminder.dosage ∧
        s'.store[i]?.map Reminder.repeat_minutes =
          ([{ id := 1, med_name := "aspirin", dosage := "1 tablet",
              schedule_time := TimeText.valid 100, repeat_minutes := some 10,
              created_at := TimeText.valid 0 }] : List Reminder)[i]?.map Reminder.repeat_minutes ∧
        s'.store[i]?.map Reminder.created_at =
          ([{ id := 1, med_name := "aspirin", dosage := "1 tablet",
              schedule_time := TimeText.valid 100, repeat_minutes := some 10,
              created_at := TimeText.valid 0 }] : List Reminder)[i]?.map Reminder.created_at) ∧
      (∀ i : Nat, ∀ r : Reminder,
        ([{ id := 1, med_name := "aspirin", dosage := "1 tablet",
            schedule_time := TimeText.valid 100, repeat_minutes := some 10,
            created_at := TimeText.valid 0 }] : List Reminder)[i]? = some r →
          r.id ≠ 1 → s'.store[i]? = some r) :=
  fire_modifies_only_schedule_time _ 1 _ 100 10 rfl rfl rfl (by decide)

/-- **C4 counterexample.** The claim says `schedule(reminder_id, due)` is a
no-op whenever `due` is not strictly in the future.  It is not: with an empty
registry, due time 5 and current instant 10 (so `due ≤ now`), `schedule_job`
arms a timer anyway — the function never consults the clock. -/
theorem schedule_job_past_due_arms_timer :
    (5 : Int) ≤ 10 ∧
    (schedule_job { store := [], jobs := [] } 1 5).jobs ≠ [] := by
  refine ⟨by decide, ?_⟩
  rw [schedule_job_of_absent
    (show get_job { store := [], jobs := [] } (job_id_of 1 5) = false from rfl)]
  simp

/-- **C4 (amended).** `schedule_job(reminder_id, due)` performs no check of
`due` against the current time: whenever the occurrence key is not yet
registered it arms the timer, past or future alike.  The only-future policy
is enforced by the callers — shown here for the creation route, which arms
nothing when `¬ now < schedule_dt` (and `bootstrap_jobs` likewise guards with
`now < when`, see the C7 theorem). -/
theorem schedule_job_has_no_future_check (s : AppState) (reminder_id : Nat)
    (due : Int) (h : get_job s (job_id_of reminder_id due) = false) :
    (schedule_job s reminder_id due).jobs =
      s.jobs ++ [{ job_id := job_id_of reminder_id due, rid := reminder_id,
                   run_date := due }] ∧
    (∀ (rid : Nat) (med dosage : String) (dt : Int) (rm : Option Int)
       (created now : Int), ¬ now < dt →
         (create_reminder s rid med dosage dt rm created now).jobs = s.jobs) := by
  constructor
  · exact schedule_job_of_absent h
  · intro rid med dosage dt rm created now hnow
    unfold create_reminder
    dsimp only
    rw [if_neg hnow]

/-- Witness for the amended C4: from the empty state, `schedule_job` with a
due time of 5 arms the timer (no clock is consulted), while the creation
route at `now = 10` with `schedule_dt = 5` arms nothing. -/
theorem schedule_job_has_no_future_check_witness :
    (schedule_job { store := [], jobs := [] } 1 5).jobs =
      [{ job_id := job_id_of 1 5, rid := 1, run_date := 5 }] ∧
    (create_reminder { store := [], jobs := [] } 2 "aspirin" "1 tablet" 5
      none 0 10).jobs = [] :=
  ⟨(schedule_job_has_no_future_check { store := [], jobs := [] } 1 5 rfl).1,
   (schedule_job_has_no_future_check { store := [], jobs := [] } 1 5 rfl).2
     2 "aspirin" "1 tablet" 5 none 0 10 (by decide)⟩

/-- **C5 counterexample.** A state with one armed timer for reminder 1 and
its stored row: deleting reminder 1 leaves that timer in the registry, so
deletion does *not* cancel the reminder's pending timers. -/
theorem delete_reminder_leaves_timer_armed :
    ((delete_reminder
        { store := [{ id := 1, med_name := "aspirin", dosage := "1 tablet",
                      schedule_time := TimeText.valid 100,
                      repeat_minutes := none,
                      created_at := TimeText.valid 0 }],
          jobs := [{ job_id := job_id_of 1 100, rid := 1, run_date := 100 }] }
        1).jobs.any (fun j => j.rid == 1)) = true := by
  rfl

/-- **C5 (amended).** Explicit deletion removes the reminder's row from the
Record Store but cancels nothing: the job registry is left exactly as it was
(the route's own comment says the per-occurrence jobs cannot easily be
enumerated).  A still-armed timer for the deleted reminder is neutralised by
the existence check in `fire_reminder`, which aborts silently. -/
theorem delete_removes_row_only (s : AppState) (reminder_id : Nat) :
    (delete_reminder s reminder_id).jobs = s.jobs ∧
    get_reminder (delete_reminder s reminder_id) reminder_id = none ∧
    fire_reminder (delete_reminder s reminder_id) reminder_id =
      some (delete_reminder s reminder_id, []) := by
  have hget : get_reminder (delete_reminder s reminder_id) reminder_id = none := by
    unfold delete_reminder delete_reminder_db get_reminder
    dsimp only
    apply List.find?_eq_none.mpr
    intro r hr
    have hmem := (List.mem_filter.mp hr).2
    simp only [bne_iff_ne, ne_eq, decide_eq_true_eq] at hmem
    simpa using hmem
  exact ⟨rfl, hget, fire_reminder_of_absent hget⟩

/-- **C6.** `schedule_job` is idempotent: starting from a registry with no
timer for the occurrence key, calling it twice with identical arguments
equals calling it once, and exactly one timer with that key is armed — the
second call finds the key via `get_job` and performs no action.  The
future-due hypothesis mirrors the claim's wording (`schedule_job` itself
never reads the clock, so the property holds for any due time). -/
theorem schedule_job_idempotent (s : AppState) (reminder_id : Nat)
    (due now : Int) (_hfut : now < due)
    (h0 : s.jobs.countP (fun j => j.job_id == job_id_of reminder_id due) = 0) :
    schedule_job (schedule_job s reminder_id due) reminder_id due =
      schedule_job s reminder_id due ∧
    (schedule_job s reminder_id due).jobs.countP
      (fun j => j.job_id == job_id_of reminder_id due) = 1 := by
  have habs : get_job s (job_id_of reminder_id due) = false := by
    unfold get_job
    rw [List.any_eq_false]
    intro j hj
    simpa using List.countP_eq_zero.mp h0 j hj
  have hjobs := schedule_job_of_absent habs
  have hpres : get_job (schedule_job s reminder_id due)
      (job_id_of reminder_id due) = true := by
    rw [get_job_schedule_job]
    simp
  refine ⟨schedule_job_of_present hpres, ?_⟩
  rw [hjobs, List.countP_append, h0]
  simp [List.countP_cons]

/-- Witness for C6: from the empty registry with `now = 0 < due = 5`, two
identical `schedule_job` calls equal one, and exactly one timer holds the
occurrence key. -/
theorem schedule_job_idempotent_witness :
    ((⟨[], []⟩ : AppState).jobs.countP
      (fun j => j.job_id == job_id_of 1 5)) = 0 ∧
    (schedule_job (schedule_job ⟨[], []⟩ 1 5) 1 5 = schedule_job ⟨[], []⟩ 1 5 ∧
      (schedule_job (⟨[], []⟩ : AppState) 1 5).jobs.countP
        (fun j => j.job_id == job_id_of 1 5) = 1) :=
  ⟨rfl, schedule_job_idempotent ⟨[], []⟩ 1 5 0 (by decide) rfl⟩

/-!
## Bootstrap: facts about `boot_step` and the fold
-/

theorem boot_step_malformed {now : Int} {acc : AppState} {r : Reminder}
    (hp : fromisoformat r.schedule_time = none) : boot_step now acc r = acc := by
  unfold boot_step
  rw [hp]

theorem boot_step_future {now t : Int} {acc : AppState} {r : Reminder}
    (hp : fromisoformat r.schedule_time = some t) (hfut : now < t) :
    boot_step now acc r = schedule_job acc r.id t := by
  unfold boot_step
  rw [hp]
  dsimp only
  rw [if_pos hfut]

theorem boot_step_past {now t : Int} {acc : AppState} {r : Reminder}
    (hp : fromisoformat r.schedule_time = some t) (hfut : ¬ now < t) :
    boot_step now acc r = acc := by
  unfold boot_step
  rw [hp]
  dsimp only
  rw [if_neg hfut]

theorem bootstrap_fold_get_job (now : Int) (rows : List Reminder) :
    ∀ (acc : AppState) (k : String),
      get_job (rows.foldl (boot_step now) acc) k = true ↔
        (get_job acc k = true ∨
          ∃ r ∈ rows, ∃ t, fromisoformat r.schedule_time = some t ∧ now < t ∧
            k = job_id_of r.id t) := by
  induction rows with
  | nil =>
    intro acc k
    simp
  | cons r rows ih =>
    intro acc k
    rw [List.foldl_cons, ih, List.exists_mem_cons_iff]
    cases hp : fromisoformat r.schedule_time with
    | none =>
      rw [boot_step_malformed hp]
      simp [hp]
    | some t =>
      by_cases hfut : now < t
      · rw [boot_step_future hp hfut, get_job_schedule_job]
        simp only [Bool.or_eq_true, beq_iff_eq, hp, Option.some.injEq]
        constructor
        · rintro ((hacc | hk) | hex)
          · exact Or.inl hacc
          · exact Or.inr (Or.inl ⟨t, rfl, hfut, hk⟩)
          · exact Or.inr (Or.inr hex)
        · rintro (hacc | (⟨t', ht', _hlt, hk⟩ | hex))
          · exact Or.inl (Or.inl hacc)
          · cases ht'
            exact Or.inl (Or.inr hk)
          · exact Or.inr hex
      · rw [boot_step_past hp hfut]
        simp only [hp, Option.some.injEq]
        constructor
        · rintro (hacc | hex)
          · exact Or.inl hacc
          · exact Or.inr (Or.inr hex)
        · rintro (hacc | (⟨t', ht', hlt, _⟩ | hex))
          · exact Or.inl hacc
          · cases ht'
            exact absurd hlt hfut
          · exact Or.inr hex

/-- **C7.** After `bootstrap_jobs`, an occurrence key is registered exactly
when it was registered before or belongs to a stored reminder whose time
parses and is strictly after `now`.  In particular reminders stored at or
before `now` (and unparseable ones) arm no timer, and the function is total —
no error is raised. -/
theorem bootstrap_schedules_exactly_future (s : AppState) (now : Int)
    (k : String) :
    get_job (bootstrap_jobs s now) k = true ↔
      (get_job s k = true ∨
        ∃ r ∈ s.store, ∃ t, fromisoformat r.schedule_time = some t ∧ now < t ∧
          k = job_id_of r.id t) := by
  unfold bootstrap_jobs get_all_reminders
  exact bootstrap_fold_get_job now s.store s k

theorem schedule_job_jobs_congr {a b : AppState} (h : a.jobs = b.jobs)
    (rid : Nat) (t : Int) :
    (schedule_job a rid t).jobs = (schedule_job b rid t).jobs := by
  unfold schedule_job get_job
  rw [h]
  split <;> first | exact h | rfl

theorem boot_step_jobs_congr {a b : AppState} (h : a.jobs = b.jobs)
    (now : Int) (r : Reminder) :
    (boot_step now a r).jobs = (boot_step now b r).jobs := by
  unfold boot_step
  cases fromisoformat r.schedule_time with
  | none => exact h
  | some t =>
    dsimp only
    by_cases hfut : now < t
    · rw [if_pos hfut, if_pos hfut]
      exact schedule_job_jobs_congr h r.id t
    · rw [if_neg hfut, if_neg hfut]
      exact h

theorem bootstrap_fold_jobs_congr (now : Int) (rows : List Reminder) :
    ∀ {a b : AppState}, a.jobs = b.jobs →
      (rows.foldl (boot_step now) a).jobs =
        (rows.foldl (boot_step now) b).jobs := by
  induction rows with
  | nil =>
    intro a b h
    exact h
  | cons r rows ih =>
    intro a b h
    rw [List.foldl_cons, List.foldl_cons]
    exact ih (boot_step_jobs_congr h now r)

/-- **C10.** During bootstrap, a stored row whose `schedule_time` does not
parse is silently skipped: the armed timers are exactly those of a bootstrap
run over the same table with the malformed row removed — no timer for it, no
error, and all remaining rows still processed. -/
theorem bootstrap_skips_malformed_row (s : AppState) (now : Int)
    (pre post : List Reminder) (bad : Reminder)
    (hstore : s.store = pre ++ bad :: post)
    (hbad : fromisoformat bad.schedule_time = none) :
    (bootstrap_jobs s now).jobs =
      (bootstrap_jobs { store := pre ++ post, jobs := s.jobs } now).jobs := by
  unfold bootstrap_jobs get_all_reminders
  dsimp only
  rw [hstore, List.foldl_append, List.foldl_cons, boot_step_malformed hbad,
      List.foldl_append]
  exact bootstrap_fold_jobs_congr now post
    (bootstrap_fold_jobs_congr now pre rfl)

/-- Witness for C10: a table holding one well-formed future reminder and one
row whose `schedule_time` is garbage; bootstrapping at `now = 0` arms the
same timers as if the garbage row were absent. -/
theorem bootstrap_skips_malformed_row_witness :
    fromisoformat (TimeText.malformed "not-a-date") = none ∧
    (bootstrap_jobs
        { store := [{ id := 1, med_name := "aspirin", dosage := "1 tablet",
                      schedule_time := TimeText.valid 100,
                      repeat_minutes := none,
                      created_at := TimeText.valid 0 },
                    { id := 2, med_name := "ibuprofen", dosage := "2 tablets",
                      schedule_time := TimeText.malformed "not-a-date",
                      repeat_minutes := none,
                      created_at := TimeText.valid 0 }],
          jobs := [] } 0).jobs =
      (bootstrap_jobs
          { store := [{ id := 1, med_name := "aspirin", dosage := "1 tablet",
                        schedule_time := TimeText.valid 100,
                        repeat_minutes := none,
                        created_at := TimeText.valid 0 }],
            jobs := [] } 0).jobs :=
  ⟨rfl,
   bootstrap_skips_malformed_row _ 0
     [{ id := 1, med_name := "aspirin", dosage := "1 tablet",
        schedule_time := TimeText.valid 100, repeat_minutes := none,
        created_at := TimeText.valid 0 }]
     []
     { id := 2, med_name := "ibuprofen", dosage := "2 tablets",
       schedule_time := TimeText.malformed "not-a-date",
       repeat_minutes := none, created_at := TimeText.valid 0 }
     rfl rfl⟩

/-!
## The job registry invariant: at most one live timer per occurrence
-/

theorem schedule_job_wf {s : AppState} (h : JobsWF s.jobs) (rid : Nat)
    (t : Int) : JobsWF (schedule_job s rid t).jobs := by
  by_cases hj : get_job s (job_id_of rid t)
  · rw [schedule_job_of_present hj]
    exact h
  · rw [schedule_job_of_absent (by simpa using hj)]
    obtain ⟨hids, hpw⟩ := h
    constructor
    · intro j hj'
      rcases List.mem_append.mp hj' with hmem | hmem
      · exact hids j hmem
      · rw [List.mem_singleton.mp hmem]
    · rw [List.pairwise_append]
      refine ⟨hpw, List.pairwise_singleton _ _, ?_⟩
      intro a ha b hb heq
      rw [List.mem_singleton.mp hb] at heq
      apply hj
      unfold get_job
      rw [List.any_eq_true]
      exact ⟨a, ha, by simp [heq]⟩

theorem fire_reminder_jobs_shape {s s' : AppState} {rid : Nat}
    {notes : List Notification}
    (h : fire_reminder s rid = some (s', notes)) :
    s'.jobs = s.jobs ∨
      ∃ t, s' = schedule_job (update_schedule_time s rid t) rid t := by
  unfold fire_reminder at h
  cases hr : get_reminder s rid with
  | none =>
    rw [hr] at h
    simp only [Option.some.injEq, Prod.mk.injEq] at h
    left
    rw [← h.1]
  | some row =>
    rw [hr] at h
    dsimp only at h
    cases hm : row.repeat_minutes with
    | none =>
      rw [hm] at h
      simp only [Option.some.injEq, Prod.mk.injEq] at h
      left
      rw [← h.1]
    | some m =>
      rw [hm] at h
      dsimp only at h
      by_cases hpos : 0 < m
      · rw [if_pos hpos] at h
        cases hp : fromisoformat row.schedule_time with
        | none =>
          rw [hp] at h
          cases h
        | some t =>
          rw [hp] at h
          simp only [Option.some.injEq, Prod.mk.injEq] at h
          right
          exact ⟨t + m, h.1.symm⟩
      · rw [if_neg hpos] at h
        simp only [Option.some.injEq, Prod.mk.injEq] at h
        left
        rw [← h.1]

theorem bootstrap_fold_wf (now : Int) (rows : List Reminder) :
    ∀ {acc : AppState}, JobsWF acc.jobs →
      JobsWF ((rows.foldl (boot_step now) acc)).jobs := by
  induction rows with
  | nil =>
    intro acc h
    exact h
  | cons r rows ih =>
    intro acc h
    rw [List.foldl_cons]
    apply ih
    unfold boot_step
    cases fromisoformat r.schedule_time with
    | none => exact h
    | some t =>
      dsimp only
      by_cases hfut : now < t
      · rw [if_pos hfut]
        exact schedule_job_wf h r.id t
      · rw [if_neg hfut]
        exact h

theorem appStep_preserves_wf {a b : AppState} (hs : AppStep a b)
    (h : JobsWF a.jobs) : JobsWF b.jobs := by
  cases hs with
  | schedule rid t => exact schedule_job_wf h rid t
  | fire s₂ rid notes hf =>
    rcases fire_reminder_jobs_shape hf with hj | ⟨t, rfl⟩
    · rw [hj]
      exact h
    · exact schedule_job_wf
        (show JobsWF (update_schedule_time a rid t).jobs from h) rid t
  | create rid med dosage dt rm created now =>
    unfold create_reminder
    dsimp only
    by_cases hnow : now < dt
    · rw [if_pos hnow]
      apply schedule_job_wf
      exact h
    · rw [if_neg hnow]
      exact h
  | del rid => exact h
  | boot now => exact bootstrap_fold_wf now a.store h

theorem reachable_wf {s : AppState} (h : Reachable s) : JobsWF s.jobs := by
  induction h with
  | init => exact ⟨by simp, List.Pairwise.nil⟩
  | step _ hs ih => exact appStep_preserves_wf hs ih

theorem countP_le_one_of_shared_key {α : Type} (p : α → Bool)
    (key : α → String) (K : String) :
    ∀ (l : List α), (∀ j ∈ l, p j = true → key j = K) →
      l.Pairwise (fun a b => key a ≠ key b) →
      l.countP p ≤ 1 := by
  intro l
  induction l with
  | nil =>
    intro _ _
    simp
  | cons x xs ih =>
    intro hk hpw
    rw [List.countP_cons]
    by_cases hx : p x = true
    · have h0 : xs.countP p = 0 := by
        rw [List.countP_eq_zero]
        intro a ha hpa
        have h1 : key a = K := hk a (List.mem_cons_of_mem _ ha) hpa
        have h2 : key x = K := hk x (List.mem_cons_self _ _) hx
        exact (List.pairwise_cons.mp hpw).1 a ha (h2.trans h1.symm)
      rw [h0]
      simp [hx]
    · have hx0 : p x = false := by simpa using hx
      simp only [hx0, Bool.false_eq_true, if_false, Nat.add_zero]
      exact ih (fun j hj => hk j (List.mem_cons_of_mem _ hj))
        (List.pairwise_cons.mp hpw).2

/-- **C8.** The occurrence key is a deterministic function of (reminder id,
due timestamp) — `job_id_of` is a plain function, so equal inputs give the
one same key and collapse to one registration via `get_job` — while distinct
due timestamps (in the minute model, any two different minutes) for the same
reminder yield distinct key strings; and in every reachable state the job
registry holds at most one live timer per `(reminder_id, due_timestamp)`
pair. -/
theorem occurrence_keys_unique (rid : Nat) (t₁ t₂ : Int) (s : AppState)
    (hne : t₁ ≠ t₂) (hreach : Reachable s) :
    job_id_of rid t₁ ≠ job_id_of rid t₂ ∧
    s.jobs.countP (fun j => j.rid == rid && j.run_date == t₁) ≤ 1 := by
  constructor
  · intro h
    exact hne (job_id_of_inj_time rid h)
  · obtain ⟨hids, hpw⟩ := reachable_wf hreach
    apply countP_le_one_of_shared_key _ Job.job_id (job_id_of rid t₁) _ _ hpw
    intro j hj hp
    simp only [Bool.and_eq_true, beq_iff_eq] at hp
    rw [hids j hj, hp.1, hp.2]

/-- Witness for C8: key strings for minutes 0 and 1 differ, and in the
(reachable) initial state at most one timer holds any occurrence pair. -/
theorem occurrence_keys_unique_witness :
    job_id_of 1 0 ≠ job_id_of 1 1 ∧
    ({ store := [], jobs := [] } : AppState).jobs.countP
      (fun j => j.rid == 1 && j.run_date == 0) ≤ 1 :=
  occurrence_keys_unique 1 0 1 { store := [], jobs := [] } (by decide)
    Reachable.init
